import Mathlib

/-!
Verification of the memory-hierarchy latency benchmark
(`cursor/benchmarks/cache_benchmark.py`).

The benchmark's pure core is embedded shallowly:
  * `generate_sizes` — the power-of-two working-set size sweep;
  * `measure_stride_reads_array` / `measure_stride_reads_list` — the two
    stride-read measurement routines (timing removed; the observable
    integer quantities they compute are kept: accesses per loop, loop
    count, total accesses, final XOR accumulator, and the dead-code
    elimination guard);
  * the per-size sweep driver of `main` — skipping of tiny sizes,
    repeated sampling, median aggregation, and `MemoryError` recovery,
    with the actual timing measurement abstracted as an oracle.

Machine integers are modelled as `ℕ`/`ℤ` (Python integers are unbounded,
so no wrap-around is needed); `ns_per_access` sample values are modelled
as `ℚ`.  Python's `int(math.log2(x))` is modelled as the exact floor of
the base-2 logarithm (`ilog2` below), i.e. the real-log semantics; the
double-precision rounding of `math.log2` is not modelled.
-/

namespace CacheBenchmark

/-- Fuel-driven floor of the base-2 logarithm; `ilog2Aux fuel n` computes
`⌊log₂ n⌋` whenever `n ≤ fuel` (and `n ≥ 1`).  Structural recursion on the
fuel keeps it kernel-reducible. -/
def ilog2Aux : ℕ → ℕ → ℕ
  | 0, _ => 0
  | fuel + 1, n => if n < 2 then 0 else ilog2Aux fuel (n / 2) + 1

/-- Model of Python's `int(math.log2(n))` for `n ≥ 1`: the floor of the
base-2 logarithm. -/
def ilog2 (n : ℕ) : ℕ := ilog2Aux n n

theorem ilog2Aux_eq_log (fuel n : ℕ) (h : n ≤ fuel) :
    ilog2Aux fuel n = Nat.log 2 n := by
  induction fuel generalizing n with
  | zero =>
    interval_cases n
    simp [ilog2Aux]
  | succ fuel ih =>
    by_cases h2 : n < 2
    · have : Nat.log 2 n = 0 := by
        interval_cases n <;> simp
      simp [ilog2Aux, h2, this]
    · push_neg at h2
      have hdiv : n / 2 ≤ fuel := by
        have h1 : n / 2 < n := Nat.div_lt_self (by omega) (by omega)
        omega
      have hrec : Nat.log 2 n = Nat.log 2 (n / 2) + 1 := by
        rw [Nat.log_eq_iff] <;> try omega
        constructor
        · calc 2 ^ (Nat.log 2 (n / 2) + 1) = 2 ^ Nat.log 2 (n / 2) * 2 := by ring
          _ ≤ n / 2 * 2 := by
              have h3 : 2 ^ Nat.log 2 (n / 2) ≤ n / 2 :=
                Nat.pow_log_le_self 2 (show n / 2 ≠ 0 by omega)
              omega
          _ ≤ n := by omega
        · calc n < (n / 2 + 1) * 2 := by omega
          _ ≤ 2 ^ (Nat.log 2 (n / 2) + 1) * 2 := by
              have h3 := @Nat.lt_pow_succ_log_self 2 (by omega) (n / 2)
              exact Nat.mul_le_mul_right 2 h3
          _ = 2 ^ (Nat.log 2 (n / 2) + 1 + 1) := by ring
      rw [ilog2Aux, if_neg (by omega), ih (n / 2) hdiv, hrec]

theorem ilog2_eq_log (n : ℕ) : ilog2 n = Nat.log 2 n :=
  ilog2Aux_eq_log n n le_rfl

/--
`generate_sizes(min_kb, max_bytes)` from `cache_benchmark.py`:

    min_bytes = min_kb * 1024
    pow_min = int(math.log2(max(1024, min_bytes)))
    pow_max = int(math.log2(max(1024, max_bytes)))
    return [1 << p for p in range(pow_min, pow_max + 1)]
-/
def generate_sizes (min_kb max_bytes : ℕ) : List ℕ :=
  let min_bytes := min_kb * 1024
  let pow_min := ilog2 (max 1024 min_bytes)
  let pow_max := ilog2 (max 1024 max_bytes)
  (List.range' pow_min (pow_max + 1 - pow_min)).map (fun p => 2 ^ p)

/-- Bytes per element of `array("Q", ...)` (a 64-bit unsigned integer),
`element_size = 8` in `main`. -/
def ELEMENT_SIZE : ℕ := 8

/-- Fuel-driven body of `rangeStep`; structural recursion on the fuel
keeps it kernel-reducible.  `n - i` steps of fuel always suffice since
each step advances `i` by `s ≥ 1`. -/
def rangeStepAux : ℕ → ℕ → ℕ → ℕ → List ℕ
  | 0, _, _, _ => []
  | fuel + 1, i, n, s => if i < n ∧ 0 < s then i :: rangeStepAux fuel (i + s) n s else []

/-- Python's `range(i, n, s)` for step `s ≥ 1`: the index sequence one
stride walk visits (`for i in range(0, num_elements, stride_elems)`). -/
def rangeStep (i n s : ℕ) : List ℕ := rangeStepAux (n - i) i n s

/-- The indices read by one full walk over a buffer of `n` elements at
stride `s`. -/
def strideIndices (n s : ℕ) : List ℕ := rangeStep 0 n s

/-- Contiguous buffer contents: `array("Q", [0]) * num_elements` is a flat
block of `num_elements` zeros. -/
def arrayData (n : ℕ) : List ℕ := List.replicate n 0

/-- Indirect buffer contents: `list(range(num_elements))`, element `i`
holds the integer `i` (each a separately boxed Python object). -/
def listData (n : ℕ) : List ℕ := List.range n

/-- The sequence of values read by one full walk over `data` at stride
`s` (`data[i]` for each visited index `i`). -/
def walkReads (data : List ℕ) (s : ℕ) : List ℕ :=
  (strideIndices data.length s).map (fun i => data.getD i 0)

/-- `accesses_per_loop = max(1, (num_elements + stride_elems - 1) // stride_elems)`. -/
def accessesPerLoop (n s : ℕ) : ℕ := max 1 ((n + s - 1) / s)

/-- `loops = max(1, (min_accesses + accesses_per_loop - 1) // accesses_per_loop)`. -/
def loopCount (min_accesses app : ℕ) : ℕ := max 1 ((min_accesses + app - 1) / app)

/-- One timed sweep: `for i in range(0, num_elements, stride_elems): s ^= data[i]`,
folded into accumulator `acc`.  All values read are non-negative Python
integers, so the XOR is `Nat.xor`. -/
def xorSweep (data : List ℕ) (s acc : ℕ) : ℕ :=
  (strideIndices data.length s).foldl (fun a i => a ^^^ data.getD i 0) acc

/-- The timed region: `s = 0`, then `loops` repetitions of the stride
walk, accumulating XORs of every value read. -/
def timedAcc (data : List ℕ) (s loops : ℕ) : ℕ :=
  (List.range loops).foldl (fun acc _ => xorSweep data s acc) 0

/-- The observable integer quantities a measurement routine computes.
Wall-clock timing (`time.perf_counter_ns`) is not modelled; everything
else the routine computes is. -/
structure MeasureTrace where
  accesses_per_loop : ℕ
  loops : ℕ
  total_accesses : ℕ
  /-- Final value of the XOR accumulator `s` of the timed region. -/
  acc : ℕ
  /-- Whether the dead-code-elimination guard `if s == -1:` fires;
  Python's `s` is a signed unbounded integer, compared against `-1`. -/
  dce_guard_fired : Bool
deriving Repr, DecidableEq

/-- `measure_stride_reads_array(num_elements, stride_elems, min_accesses)`:
contiguous `array("Q")` variant.  The warm-up walk writes a local that is
discarded before the timed region, so it does not appear in the trace. -/
def measure_stride_reads_array (num_elements stride_elems min_accesses : ℕ) :
    MeasureTrace :=
  let data := arrayData num_elements
  let app := accessesPerLoop num_elements stride_elems
  let loops := loopCount min_accesses app
  let acc := timedAcc data stride_elems loops
  { accesses_per_loop := app
    loops := loops
    total_accesses := loops * app
    acc := acc
    dce_guard_fired := decide ((acc : ℤ) = -1) }

/-- `measure_stride_reads_list(num_elements, stride_elems, min_accesses)`:
Python-list (pointer-indirection) variant. -/
def measure_stride_reads_list (num_elements stride_elems min_accesses : ℕ) :
    MeasureTrace :=
  let data := listData num_elements
  let app := accessesPerLoop num_elements stride_elems
  let loops := loopCount min_accesses app
  let acc := timedAcc data stride_elems loops
  { accesses_per_loop := app
    loops := loops
    total_accesses := loops * app
    acc := acc
    dce_guard_fired := decide ((acc : ℤ) = -1) }

/-- The run configuration `main` derives from the parsed arguments
(after the "default to both buffer kinds" adjustment). -/
structure Config where
  min_accesses : ℕ
  repeats : ℕ
  stride_bytes : ℕ
  use_array : Bool
  use_list : Bool
  warmup : Bool

/-- `stride_elems = max(1, args.stride_bytes // element_size)`. -/
def strideElems (cfg : Config) : ℕ := max 1 (cfg.stride_bytes / ELEMENT_SIZE)

/-- `num_elements_array = max(1, size_bytes // element_size)`; the list
variant uses the same count (`num_elements_list = num_elements_array`). -/
def numElements (size_bytes : ℕ) : ℕ := max 1 (size_bytes / ELEMENT_SIZE)

/-- The argument tuple of one `measure_stride_reads_*` invocation made by
`main`. -/
structure MeasureCall where
  num_elements : ℕ
  stride_elems : ℕ
  min_accesses : ℕ
  warmup : Bool
deriving Repr, DecidableEq

/-- Arguments `main` passes to `measure_stride_reads_array`: the full
configured `min_accesses`. -/
def arrayCallArgs (cfg : Config) (num_elements : ℕ) : MeasureCall :=
  { num_elements := num_elements
    stride_elems := strideElems cfg
    min_accesses := cfg.min_accesses
    warmup := cfg.warmup }

/-- Arguments `main` passes to `measure_stride_reads_list`:
`min_accesses=args.min_accesses // 10` ("lists are slower"). -/
def listCallArgs (cfg : Config) (num_elements : ℕ) : MeasureCall :=
  { num_elements := num_elements
    stride_elems := strideElems cfg
    min_accesses := cfg.min_accesses / 10
    warmup := cfg.warmup }

/-- A timing oracle: given the arguments of one measurement call and the
repeat index, either the `ns_per_access` value that call returns, or
`Except.error ()` when the call raises `MemoryError`.  The oracle stands
for the non-deterministic wall-clock timing of the real measurer. -/
def Oracle : Type := MeasureCall → ℕ → Except Unit ℚ

/-- The `for _ in range(repeats): samples.append(measure(...))` loop
inside one `try:` block: samples are collected sequentially and the first
`MemoryError` aborts the whole block. -/
def collectSamples (meas : ℕ → Except Unit ℚ) (reps : ℕ) :
    Except Unit (List ℚ) :=
  (List.range reps).mapM meas

/-- Python's `statistics.median`: sort ascending; odd length takes the
middle element, even length averages the two middle elements.  (On the
empty list Python raises `StatisticsError`; the `0` returned here is
dead code for `repeats ≥ 1`.) -/
def median (xs : List ℚ) : ℚ :=
  let sorted := xs.insertionSort (· ≤ ·)
  let n := sorted.length
  if n % 2 = 1 then sorted.getD (n / 2) 0
  else (sorted.getD (n / 2 - 1) 0 + sorted.getD (n / 2) 0) / 2

/-- One recorded sample for a (size, buffer-kind) pair: either the
`float("nan")` marker written on `MemoryError`, or the median value. -/
inductive Sample where
  | unavailable
  | value (q : ℚ)
deriving Repr, DecidableEq

/-- `ns = statistics.median(samples)` wrapped in the
`try: ... except MemoryError: ns = float("nan")` block. -/
def aggregate (meas : ℕ → Except Unit ℚ) (reps : ℕ) : Sample :=
  match collectSamples meas reps with
  | .ok xs => .value (median xs)
  | .error _ => .unavailable

/-- One output row of the sweep.  A field is `none` when that buffer kind
is disabled (the Python variable stays `None`), `some .unavailable` when
allocation failed, `some (.value q)` otherwise. -/
structure Row where
  size_bytes : ℕ
  ns_array : Option Sample
  ns_list : Option Sample

/-- The body of the `for size_bytes in sizes:` loop for one size that was
not skipped: measure each enabled buffer kind `repeats` times and reduce
to the median (or the unavailable marker). -/
def mkRow (cfg : Config) (measA measL : Oracle) (size_bytes : ℕ) : Row :=
  let n := numElements size_bytes
  { size_bytes := size_bytes
    ns_array :=
      if cfg.use_array then some (aggregate (measA (arrayCallArgs cfg n)) cfg.repeats)
      else none
    ns_list :=
      if cfg.use_list then some (aggregate (measL (listCallArgs cfg n)) cfg.repeats)
      else none }

/-- The sweep loop of `main`: for each size in order, skip it when
`num_elements_array < 8` (`continue`), otherwise emit its row. -/
def sweep (cfg : Config) (measA measL : Oracle) : List ℕ → List Row
  | [] => []
  | size_bytes :: rest =>
    if numElements size_bytes < 8 then sweep cfg measA measL rest
    else mkRow cfg measA measL size_bytes :: sweep cfg measA measL rest

/-! ## Helper lemmas -/

theorem rangeStepAux_length (s : ℕ) (hs : 1 ≤ s) :
    ∀ fuel i n, n - i ≤ fuel →
      (rangeStepAux fuel i n s).length = (n - i + s - 1) / s := by
  intro fuel
  induction fuel with
  | zero =>
    intro i n hf
    have e1 : n - i = 0 := by omega
    rw [rangeStepAux, List.length_nil, e1, Nat.div_eq_of_lt (by omega)]
  | succ fuel ih =>
    intro i n hf
    by_cases h : i < n
    · rw [rangeStepAux, if_pos ⟨h, by omega⟩, List.length_cons,
        ih (i + s) n (by omega)]
      by_cases hd : s ≤ n - i
      · have e1 : n - (i + s) + s - 1 = n - i - 1 := by omega
        have e2 : n - i + s - 1 = n - i - 1 + s * 1 := by omega
        rw [e1, e2, Nat.add_mul_div_left _ _ (show 0 < s by omega)]
      · have e1 : n - (i + s) = 0 := by omega
        have h1 : (0 + s - 1) / s = 0 := Nat.div_eq_of_lt (by omega)
        have h2 : (n - i + s - 1) / s = 1 := Nat.div_eq_of_lt_le (by omega) (by omega)
        rw [e1, h1, h2]
    · rw [rangeStepAux, if_neg (by omega), List.length_nil]
      have e1 : n - i = 0 := by omega
      rw [e1, Nat.div_eq_of_lt (by omega)]

theorem strideIndices_length (n s : ℕ) (hs : 1 ≤ s) :
    (strideIndices n s).length = (n + s - 1) / s := by
  rw [strideIndices, rangeStep, rangeStepAux_length s hs (n - 0) 0 n le_rfl,
    Nat.sub_zero]

/-- The ℕ ceiling division `(n + s - 1) / s` is the ceiling of the exact
rational quotient. -/
theorem ceil_div_eq_int_ceil (n s : ℕ) (hs : 1 ≤ s) :
    (((n + s - 1) / s : ℕ) : ℤ) = ⌈(n : ℚ) / (s : ℚ)⌉ := by
  have hs0 : 0 < s := hs
  have hmod := Nat.div_add_mod (n + s - 1) s
  have hlt : (n + s - 1) % s < s := Nat.mod_lt _ hs0
  generalize hq : (n + s - 1) / s = q at hmod ⊢
  have hub : n ≤ s * q := by omega
  have hlb : s * q < n + s := by omega
  have hsQ : (0 : ℚ) < (s : ℚ) := by exact_mod_cast hs0
  have hubQ : (n : ℚ) ≤ (s : ℚ) * (q : ℚ) := by exact_mod_cast hub
  have hlbQ : (s : ℚ) * (q : ℚ) < (n : ℚ) + (s : ℚ) := by exact_mod_cast hlb
  symm
  rw [Int.ceil_eq_iff]
  constructor
  · rw [lt_div_iff₀ hsQ]
    push_cast
    nlinarith [hlbQ]
  · rw [div_le_iff₀ hsQ]
    push_cast
    nlinarith [hubQ]

/-! ## C3: loop count is the minimal repeat count reaching `min_accesses` -/

/-- C3: for `min_accesses ≥ 1` and `accesses_per_sweep ≥ 1`, the loop
count satisfies `loop_count * accesses_per_sweep ≥ min_accesses` and is
the smallest positive integer doing so; and the concrete scenario
`element_count=1000, stride_elements=3, min_accesses=100` yields
`accesses_per_sweep = 334` and `loop_count = 1`. -/
theorem loopCount_minimal_spec (min_accesses app : ℕ)
    (hmin : 1 ≤ min_accesses) (happ : 1 ≤ app) :
    min_accesses ≤ loopCount min_accesses app * app ∧
    (∀ k, 0 < k → min_accesses ≤ k * app → loopCount min_accesses app ≤ k) ∧
    accessesPerLoop 1000 3 = 334 ∧
    (measure_stride_reads_array 1000 3 100).loops = 1 := by
  have hq1 : 1 ≤ (min_accesses + app - 1) / app := by
    rw [Nat.le_div_iff_mul_le (by omega)]
    omega
  have hlc : loopCount min_accesses app = (min_accesses + app - 1) / app :=
    max_eq_right hq1
  refine ⟨?_, ?_, by decide, by decide⟩
  · rw [hlc]
    have hmod := Nat.div_add_mod (min_accesses + app - 1) app
    have hlt : (min_accesses + app - 1) % app < app := Nat.mod_lt _ (by omega)
    generalize hq : (min_accesses + app - 1) / app = q at hmod ⊢
    have hcomm : app * q = q * app := Nat.mul_comm app q
    omega
  · intro k hk hka
    rw [hlc]
    have hle : min_accesses + app - 1 ≤ app * k + (app - 1) := by
      have : k * app = app * k := Nat.mul_comm k app
      omega
    calc (min_accesses + app - 1) / app ≤ (app * k + (app - 1)) / app :=
          Nat.div_le_div_right hle
      _ = k + (app - 1) / app := Nat.mul_add_div (by omega) k (app - 1)
      _ = k := by rw [Nat.div_eq_of_lt (by omega)]; omega

/-- Witness for `loopCount_minimal_spec` at `min_accesses = 100`,
`app = 334`. -/
theorem loopCount_minimal_spec_witness :
    1 ≤ 100 ∧ 1 ≤ 334 ∧
    (100 ≤ loopCount 100 334 * 334 ∧
     (∀ k, 0 < k → 100 ≤ k * 334 → loopCount 100 334 ≤ k) ∧
     accessesPerLoop 1000 3 = 334 ∧
     (measure_stride_reads_array 1000 3 100).loops = 1) :=
  ⟨by decide, by decide, loopCount_minimal_spec 100 334 (by decide) (by decide)⟩

/-! ## C4: accesses per sweep is the ceiling of count over stride -/

/-- C4: for `element_count ≥ 1` and `stride_elements ≥ 1`,
`accesses_per_sweep = ⌈element_count / stride_elements⌉`, and one full
walk over the buffer performs exactly that many reads, identically for
the contiguous (array) and indirect (list) variants; concretely, a
buffer of 16 elements walked at stride 1 is read exactly 16 times by
both variants. -/
theorem accessesPerLoop_ceil_spec (n s : ℕ) (hn : 1 ≤ n) (hs : 1 ≤ s) :
    accessesPerLoop n s = (n + s - 1) / s ∧
    ((accessesPerLoop n s : ℤ) = ⌈(n : ℚ) / (s : ℚ)⌉) ∧
    (walkReads (arrayData n) s).length = accessesPerLoop n s ∧
    (walkReads (listData n) s).length = accessesPerLoop n s ∧
    (walkReads (arrayData 16) 1).length = 16 ∧
    (walkReads (listData 16) 1).length = 16 := by
  have hq1 : 1 ≤ (n + s - 1) / s := by
    rw [Nat.le_div_iff_mul_le (by omega)]
    omega
  have hapl : accessesPerLoop n s = (n + s - 1) / s := max_eq_right hq1
  have harr : (walkReads (arrayData n) s).length = (n + s - 1) / s := by
    rw [walkReads, List.length_map, arrayData, List.length_replicate,
      strideIndices_length n s hs]
  have hlst : (walkReads (listData n) s).length = (n + s - 1) / s := by
    rw [walkReads, List.length_map, listData, List.length_range,
      strideIndices_length n s hs]
  exact ⟨hapl, by rw [hapl]; exact ceil_div_eq_int_ceil n s hs,
    by rw [harr, hapl], by rw [hlst, hapl], by decide, by decide⟩

/-- Witness for `accessesPerLoop_ceil_spec` at `n = 16`, `s = 1`. -/
theorem accessesPerLoop_ceil_spec_witness :
    1 ≤ 16 ∧ 1 ≤ 1 ∧
    (accessesPerLoop 16 1 = (16 + 1 - 1) / 1 ∧
     ((accessesPerLoop 16 1 : ℤ) = ⌈(16 : ℚ) / (1 : ℚ)⌉) ∧
     (walkReads (arrayData 16) 1).length = accessesPerLoop 16 1 ∧
     (walkReads (listData 16) 1).length = accessesPerLoop 16 1 ∧
     (walkReads (arrayData 16) 1).length = 16 ∧
     (walkReads (listData 16) 1).length = 16) :=
  ⟨by decide, by decide, accessesPerLoop_ceil_spec 16 1 (by decide) (by decide)⟩

/-! ## C9: the dead-code-elimination guard can never fire -/

theorem getD_arrayData (n i : ℕ) : (arrayData n).getD i 0 = 0 := by
  rw [arrayData, List.getD_eq_getElem?_getD, List.getElem?_replicate]
  by_cases h : i < n <;> simp [h]

theorem xorSweep_arrayData (n s : ℕ) : ∀ acc, xorSweep (arrayData n) s acc = acc := by
  simp only [xorSweep]
  generalize strideIndices (arrayData n).length s = l
  induction l with
  | nil => intro acc; rfl
  | cons x xs ih =>
    intro acc
    rw [List.foldl_cons, getD_arrayData, Nat.xor_zero]
    exact ih acc

theorem foldl_of_id {g : ℕ → ℕ → ℕ} (hg : ∀ a x, g a x = a) :
    ∀ (l : List ℕ) (a : ℕ), l.foldl g a = a := by
  intro l
  induction l with
  | nil => intro a; rfl
  | cons x xs ih =>
    intro a
    rw [List.foldl_cons, hg]
    exact ih a

theorem timedAcc_arrayData (n s loops : ℕ) : timedAcc (arrayData n) s loops = 0 := by
  rw [timedAcc]
  exact foldl_of_id (fun a x => xorSweep_arrayData n s a) _ 0

/-- C9: the XOR accumulator of the timed region is a non-negative
integer for both variants (it is exactly `0` for the zero-initialised
contiguous buffer), so the dead-code-elimination guard `if s == -1:`
never fires in either `measure_stride_reads_array` or
`measure_stride_reads_list`. -/
theorem dce_guard_never_fires (num_elements stride_elems min_accesses : ℕ) :
    (measure_stride_reads_array num_elements stride_elems min_accesses).acc = 0 ∧
    (measure_stride_reads_array num_elements stride_elems min_accesses).dce_guard_fired
      = false ∧
    0 ≤ ((measure_stride_reads_list num_elements stride_elems min_accesses).acc : ℤ) ∧
    (measure_stride_reads_list num_elements stride_elems min_accesses).dce_guard_fired
      = false := by
  simp only [measure_stride_reads_array, measure_stride_reads_list]
  refine ⟨timedAcc_arrayData _ _ _, ?_, Int.natCast_nonneg _, ?_⟩
  · rw [timedAcc_arrayData]
    rfl
  · apply decide_eq_false
    have h := Int.natCast_nonneg
      (timedAcc (listData num_elements) stride_elems
        (loopCount min_accesses (accessesPerLoop num_elements stride_elems)))
    omega

/-! ## C5: the reported value is the median of the repeated samples -/

theorem mapM_eq_ok {α : Type} (f : α → Except Unit ℚ) (v : α → ℚ) :
    ∀ l : List α, (∀ i ∈ l, f i = Except.ok (v i)) →
      l.mapM f = Except.ok (l.map v) := by
  intro l
  induction l with
  | nil => intro _; rfl
  | cons a as ih =>
    intro h
    have ha : f a = Except.ok (v a) := h a (List.mem_cons_self a as)
    have has : as.mapM f = Except.ok (as.map v) :=
      ih fun i hi => h i (List.mem_cons_of_mem a hi)
    rw [List.mapM_cons, ha, has]
    rfl

/-- C5: for an enabled buffer kind, when every one of the `repeats`
measurer invocations succeeds with sample `va i` (resp. `vl i`), the
value the sweep reports for that (size, kind) pair is exactly the
statistical median of those samples. -/
theorem reported_value_is_median (cfg : Config) (measA measL : Oracle)
    (size_bytes : ℕ) (va vl : ℕ → ℚ)
    (hA : cfg.use_array = true) (hL : cfg.use_list = true)
    (hva : ∀ i ∈ List.range cfg.repeats,
      measA (arrayCallArgs cfg (numElements size_bytes)) i = Except.ok (va i))
    (hvl : ∀ i ∈ List.range cfg.repeats,
      measL (listCallArgs cfg (numElements size_bytes)) i = Except.ok (vl i)) :
    (mkRow cfg measA measL size_bytes).ns_array
      = some (.value (median ((List.range cfg.repeats).map va))) ∧
    (mkRow cfg measA measL size_bytes).ns_list
      = some (.value (median ((List.range cfg.repeats).map vl))) := by
  have hca : collectSamples (measA (arrayCallArgs cfg (numElements size_bytes)))
      cfg.repeats = Except.ok ((List.range cfg.repeats).map va) :=
    mapM_eq_ok _ va _ hva
  have hcl : collectSamples (measL (listCallArgs cfg (numElements size_bytes)))
      cfg.repeats = Except.ok ((List.range cfg.repeats).map vl) :=
    mapM_eq_ok _ vl _ hvl
  rw [mkRow]
  constructor
  · simp only [hA, if_true, aggregate, hca]
  · simp only [hL, if_true, aggregate, hcl]

/-- Witness for `reported_value_is_median`: three repeats returning
constant samples 5 and 7. -/
theorem reported_value_is_median_witness :
    (mkRow ⟨1000000, 3, 64, true, true, true⟩
        (fun _ _ => Except.ok 5) (fun _ _ => Except.ok 7) 16384).ns_array
      = some (.value (median ((List.range 3).map (fun _ => (5 : ℚ))))) ∧
    (mkRow ⟨1000000, 3, 64, true, true, true⟩
        (fun _ _ => Except.ok 5) (fun _ _ => Except.ok 7) 16384).ns_list
      = some (.value (median ((List.range 3).map (fun _ => (7 : ℚ))))) :=
  reported_value_is_median ⟨1000000, 3, 64, true, true, true⟩
    (fun _ _ => Except.ok 5) (fun _ _ => Except.ok 7) 16384
    (fun _ => 5) (fun _ => 7) rfl rfl
    (fun _ _ => rfl) (fun _ _ => rfl)

/-! ## C6/C8: sweep structure — skipping and allocation-failure recovery -/

theorem sweep_eq_filter_map (cfg : Config) (measA measL : Oracle)
    (sizes : List ℕ) :
    sweep cfg measA measL sizes
      = (sizes.filter (fun t => !decide (numElements t < 8))).map
          (mkRow cfg measA measL) := by
  induction sizes with
  | nil => rfl
  | cons s rest ih =>
    by_cases h : numElements s < 8
    · rw [sweep, if_pos h, ih, List.filter_cons,
        if_neg (by simp [h])]
    · rw [sweep, if_neg h, ih, List.filter_cons,
        if_pos (by simp [h]), List.map_cons]

/-- C8: a size whose derived element count is below 8 is skipped
entirely — the sweep output is exactly one row per size passing the
`num_elements_array < 8` filter, in order; a skipped singleton produces
no row and an eligible one produces exactly its measured row. -/
theorem small_sizes_skipped (cfg : Config) (measA measL : Oracle)
    (sizes : List ℕ) :
    sweep cfg measA measL sizes
      = (sizes.filter (fun t => !decide (numElements t < 8))).map
          (mkRow cfg measA measL) ∧
    (∀ s, numElements s < 8 → sweep cfg measA measL [s] = []) ∧
    (∀ s, ¬ numElements s < 8 →
      sweep cfg measA measL [s] = [mkRow cfg measA measL s]) := by
  refine ⟨sweep_eq_filter_map cfg measA measL sizes, ?_, ?_⟩
  · intro s h
    rw [sweep, if_pos h]
    rfl
  · intro s h
    rw [sweep, if_neg h]
    rfl

/-- C6: for every eligible size and every enabled buffer kind, when the
measurement of that (size, kind) pair raises `MemoryError` (modelled as
that kind's sample-collection loop returning an error), the sample
recorded for that pair is the unavailable marker; the row for that size
is still produced (no exception escapes the size's measurement), and the
sweep still contains one row for every eligible size. -/
theorem allocation_failure_recovered (cfg : Config) (measA measL : Oracle)
    (sizes : List ℕ) (s : ℕ)
    (hs : s ∈ sizes) (hel : ¬ numElements s < 8) :
    (cfg.use_array = true →
      collectSamples (measA (arrayCallArgs cfg (numElements s)))
        cfg.repeats = Except.error () →
      (mkRow cfg measA measL s).ns_array = some .unavailable) ∧
    (cfg.use_list = true →
      collectSamples (measL (listCallArgs cfg (numElements s)))
        cfg.repeats = Except.error () →
      (mkRow cfg measA measL s).ns_list = some .unavailable) ∧
    mkRow cfg measA measL s ∈ sweep cfg measA measL sizes ∧
    sweep cfg measA measL sizes
      = (sizes.filter (fun t => !decide (numElements t < 8))).map
          (mkRow cfg measA measL) := by
  refine ⟨?_, ?_, ?_, sweep_eq_filter_map cfg measA measL sizes⟩
  · intro hA hfail
    rw [mkRow]
    simp only [hA, if_true, aggregate, hfail]
  · intro hL hfail
    rw [mkRow]
    simp only [hL, if_true, aggregate, hfail]
  · rw [sweep_eq_filter_map]
    exact List.mem_map_of_mem _ (List.mem_filter.mpr ⟨hs, by simp [hel]⟩)

/-- Witness for `allocation_failure_recovered`: oracles that raise
`MemoryError` for both the array and the list kind, sizes
`[64, 16384]`, failing size `16384`. -/
theorem allocation_failure_recovered_witness :
    16384 ∈ [64, 16384] ∧
    ¬ numElements 16384 < 8 ∧
    (((⟨1000000, 3, 64, true, true, true⟩ : Config).use_array = true →
      collectSamples ((fun _ _ => Except.error ()) (arrayCallArgs
        ⟨1000000, 3, 64, true, true, true⟩ (numElements 16384))) 3
        = Except.error () →
      (mkRow ⟨1000000, 3, 64, true, true, true⟩ (fun _ _ => Except.error ())
        (fun _ _ => Except.error ()) 16384).ns_array = some .unavailable) ∧
     ((⟨1000000, 3, 64, true, true, true⟩ : Config).use_list = true →
      collectSamples ((fun _ _ => Except.error ()) (listCallArgs
        ⟨1000000, 3, 64, true, true, true⟩ (numElements 16384))) 3
        = Except.error () →
      (mkRow ⟨1000000, 3, 64, true, true, true⟩ (fun _ _ => Except.error ())
        (fun _ _ => Except.error ()) 16384).ns_list = some .unavailable) ∧
     mkRow ⟨1000000, 3, 64, true, true, true⟩ (fun _ _ => Except.error ())
        (fun _ _ => Except.error ()) 16384
        ∈ sweep ⟨1000000, 3, 64, true, true, true⟩ (fun _ _ => Except.error ())
            (fun _ _ => Except.error ()) [64, 16384] ∧
     sweep ⟨1000000, 3, 64, true, true, true⟩ (fun _ _ => Except.error ())
          (fun _ _ => Except.error ()) [64, 16384]
        = ([64, 16384].filter (fun t => !decide (numElements t < 8))).map
            (mkRow ⟨1000000, 3, 64, true, true, true⟩ (fun _ _ => Except.error ())
              (fun _ _ => Except.error ()))) :=
  ⟨by decide, by decide,
    allocation_failure_recovered ⟨1000000, 3, 64, true, true, true⟩
      (fun _ _ => Except.error ()) (fun _ _ => Except.error ()) [64, 16384] 16384
      (by decide) (by decide)⟩

/-! ## C7: the indirect variant gets a one-tenth `min_accesses` floor -/

/-- C7: every array-kind measurement is invoked with the full configured
`min_accesses`, every list-kind measurement with `min_accesses // 10`
(one tenth, rounded down); and the list-kind result of a row depends on
the oracle only through its behaviour at exactly that reduced-floor
argument tuple. -/
theorem indirect_tenth_floor (cfg : Config) (size_bytes : ℕ)
    (measA measL measL' : Oracle)
    (hcall : measL (listCallArgs cfg (numElements size_bytes))
      = measL' (listCallArgs cfg (numElements size_bytes))) :
    (arrayCallArgs cfg (numElements size_bytes)).min_accesses
      = cfg.min_accesses ∧
    (listCallArgs cfg (numElements size_bytes)).min_accesses
      = cfg.min_accesses / 10 ∧
    10 * (listCallArgs cfg (numElements size_bytes)).min_accesses
      ≤ cfg.min_accesses ∧
    (mkRow cfg measA measL size_bytes).ns_list
      = (mkRow cfg measA measL' size_bytes).ns_list := by
  refine ⟨rfl, rfl, ?_, ?_⟩
  · show 10 * (cfg.min_accesses / 10) ≤ cfg.min_accesses
    omega
  · rw [mkRow, mkRow]
    simp only [aggregate, collectSamples, hcall]

/-- Witness for `indirect_tenth_floor` at a concrete configuration with
`min_accesses = 1000000`. -/
theorem indirect_tenth_floor_witness :
    (arrayCallArgs ⟨1000000, 3, 64, true, true, true⟩ (numElements 16384)).min_accesses
      = 1000000 ∧
    (listCallArgs ⟨1000000, 3, 64, true, true, true⟩ (numElements 16384)).min_accesses
      = 1000000 / 10 ∧
    10 * (listCallArgs ⟨1000000, 3, 64, true, true, true⟩ (numElements 16384)).min_accesses
      ≤ 1000000 ∧
    (mkRow ⟨1000000, 3, 64, true, true, true⟩ (fun _ _ => Except.ok 5)
        (fun _ _ => Except.ok 7) 16384).ns_list
      = (mkRow ⟨1000000, 3, 64, true, true, true⟩ (fun _ _ => Except.ok 5)
          (fun _ _ => Except.ok 7) 16384).ns_list :=
  indirect_tenth_floor ⟨1000000, 3, 64, true, true, true⟩ 16384
    (fun _ _ => Except.ok 5) (fun _ _ => Except.ok 7) (fun _ _ => Except.ok 7) rfl

/-! ## C1: the generated sweep — lower endpoint floors, not ceils -/

/-- C1 is false as stated: for `min_kb = 3` (`min_bytes = 3072`) and
`max_bytes = 8192`, the generated sweep starts at `2048`, which is below
`max(1024, min_bytes) = 3072` — the code floors the logarithm of the
lower bound instead of taking its ceiling. -/
theorem generate_sizes_claim_counterexample :
    2048 ∈ generate_sizes 3 8192 ∧ 2048 < max 1024 (3 * 1024) ∧
    generate_sizes 3 8192 = [2048, 4096, 8192] := by decide

/-- C1 amended: for positive bounds the sweep is a strictly increasing
sequence of powers of two whose exponents span exactly
`[⌊log₂ max(1024, min_bytes)⌋, ⌊log₂ max(1024, max_bytes)⌋]`; every
element lies within `[2 ^ ⌊log₂ max(1024, min_bytes)⌋, max(1024, max_bytes)]`
(the largest power of two ≤ each effective bound, inclusive). -/
theorem generate_sizes_amended (min_kb max_bytes : ℕ)
    (_hmin : 1 ≤ min_kb) (_hmax : 1 ≤ max_bytes) :
    List.Pairwise (· < ·) (generate_sizes min_kb max_bytes) ∧
    (∀ x ∈ generate_sizes min_kb max_bytes, ∃ p, x = 2 ^ p ∧
      ilog2 (max 1024 (min_kb * 1024)) ≤ p ∧ p ≤ ilog2 (max 1024 max_bytes)) ∧
    (∀ x ∈ generate_sizes min_kb max_bytes,
      2 ^ ilog2 (max 1024 (min_kb * 1024)) ≤ x ∧ x ≤ max 1024 max_bytes) ∧
    (∀ p, ilog2 (max 1024 (min_kb * 1024)) ≤ p →
      p ≤ ilog2 (max 1024 max_bytes) →
      2 ^ p ∈ generate_sizes min_kb max_bytes) := by
  simp only [generate_sizes]
  refine ⟨?_, ?_, ?_, ?_⟩
  · exact List.Pairwise.map _
      (fun x y h => Nat.pow_lt_pow_right (by omega) h)
      (List.pairwise_lt_range' _ _)
  · intro x hx
    simp only [List.mem_map, List.mem_range'_1] at hx
    obtain ⟨p, ⟨hp1, hp2⟩, rfl⟩ := hx
    exact ⟨p, rfl, hp1, by omega⟩
  · intro x hx
    simp only [List.mem_map, List.mem_range'_1] at hx
    obtain ⟨p, ⟨hp1, hp2⟩, rfl⟩ := hx
    constructor
    · exact Nat.pow_le_pow_right (by omega) hp1
    · calc 2 ^ p ≤ 2 ^ ilog2 (max 1024 max_bytes) :=
            Nat.pow_le_pow_right (by omega) (by omega)
        _ ≤ max 1024 max_bytes := by
            rw [ilog2_eq_log]
            exact Nat.pow_log_le_self 2 (by omega)
  · intro p h1 h2
    simp only [List.mem_map, List.mem_range'_1]
    exact ⟨p, ⟨h1, by omega⟩, rfl⟩

/-- Witness for `generate_sizes_amended` at `min_kb = 1`,
`max_bytes = 2048`. -/
theorem generate_sizes_amended_witness :
    1 ≤ 1 ∧ 1 ≤ 2048 ∧
    (List.Pairwise (· < ·) (generate_sizes 1 2048) ∧
     (∀ x ∈ generate_sizes 1 2048, ∃ p, x = 2 ^ p ∧
       ilog2 (max 1024 (1 * 1024)) ≤ p ∧ p ≤ ilog2 (max 1024 2048)) ∧
     (∀ x ∈ generate_sizes 1 2048,
       2 ^ ilog2 (max 1024 (1 * 1024)) ≤ x ∧ x ≤ max 1024 2048) ∧
     (∀ p, ilog2 (max 1024 (1 * 1024)) ≤ p → p ≤ ilog2 (max 1024 2048) →
       2 ^ p ∈ generate_sizes 1 2048)) :=
  ⟨by decide, by decide, generate_sizes_amended 1 2048 (by decide) (by decide)⟩

/-! ## C2: when the sweep is empty -/

/-- C2 is false as stated: for `min_kb = 3` (`min_bytes = 3072`) and
`max_bytes = 2048` the bounds are inverted after the 1024-byte floor
(`3072 > 2048`), yet the sweep is `[2048]`, not empty. -/
theorem degenerate_sweep_claim_counterexample :
    max 1024 (3 * 1024) > max 1024 2048 ∧ generate_sizes 3 2048 = [2048] := by
  decide

/-- C2 amended: the sweep is empty exactly when the floored logarithm of
the effective upper bound is below that of the effective lower bound
(which requires inverted bounds but is not implied by them); the
degenerate case returns an ordinary empty list, not an error. -/
theorem generate_sizes_empty_iff (min_kb max_bytes : ℕ) :
    generate_sizes min_kb max_bytes = [] ↔
      ilog2 (max 1024 max_bytes) < ilog2 (max 1024 (min_kb * 1024)) := by
  simp only [generate_sizes, List.map_eq_nil_iff, List.range'_eq_nil]
  omega

/-! ## C10: generated sizes always pass the element-count filter -/

/-- C10: every size produced by `generate_sizes` is a power of two with
exponent ≥ 10, hence at least 1024, exactly divisible by the 8-byte
element size, with derived element count `size // 8` at least 128; the
`num_elements_array < 8` skip branch of the sweep loop can never fire
for a generator-produced size. -/
theorem generated_size_never_skipped (min_kb max_bytes x : ℕ)
    (hx : x ∈ generate_sizes min_kb max_bytes) :
    (∃ p, 10 ≤ p ∧ x = 2 ^ p) ∧ 1024 ≤ x ∧ x % 8 = 0 ∧
    128 ≤ x / 8 ∧ numElements x = x / 8 ∧ ¬ numElements x < 8 := by
  simp only [generate_sizes, List.mem_map, List.mem_range'_1] at hx
  obtain ⟨p, ⟨hp1, _⟩, rfl⟩ := hx
  have hp10 : 10 ≤ p := by
    have h2 : Nat.log 2 1024 ≤ Nat.log 2 (max 1024 (min_kb * 1024)) :=
      Nat.log_mono_right (le_max_left _ _)
    have hlp : Nat.log 2 1024 = 10 := by
      rw [show (1024 : ℕ) = 2 ^ 10 by norm_num, Nat.log_pow (by omega)]
    rw [ilog2_eq_log] at hp1
    omega
  have h1024 : 1024 ≤ 2 ^ p := by
    calc (1024 : ℕ) = 2 ^ 10 := by norm_num
      _ ≤ 2 ^ p := Nat.pow_le_pow_right (by omega) hp10
  have hdvd : (8 : ℕ) ∣ 2 ^ p := by
    rw [show (8 : ℕ) = 2 ^ 3 by norm_num]
    exact pow_dvd_pow 2 (by omega)
  have hdiv : 2 ^ p / 8 = 2 ^ (p - 3) := by
    rw [show (8 : ℕ) = 2 ^ 3 by norm_num]
    exact Nat.pow_div (by omega) (by omega)
  have h128 : 128 ≤ 2 ^ p / 8 := by
    rw [hdiv]
    calc (128 : ℕ) = 2 ^ 7 := by norm_num
      _ ≤ 2 ^ (p - 3) := Nat.pow_le_pow_right (by omega) (by omega)
  have hne : numElements (2 ^ p) = 2 ^ p / 8 := by
    show max 1 (2 ^ p / ELEMENT_SIZE) = 2 ^ p / 8
    show max 1 (2 ^ p / 8) = 2 ^ p / 8
    omega
  refine ⟨⟨p, hp10, rfl⟩, h1024, Nat.mod_eq_zero_of_dvd hdvd, h128, hne, ?_⟩
  omega

/-- Witness for `generated_size_never_skipped` at the generated size
`1024` of the sweep for `min_kb = 1`, `max_bytes = 1024`. -/
theorem generated_size_never_skipped_witness :
    1024 ∈ generate_sizes 1 1024 ∧
    ((∃ p, 10 ≤ p ∧ 1024 = 2 ^ p) ∧ 1024 ≤ 1024 ∧ 1024 % 8 = 0 ∧
     128 ≤ 1024 / 8 ∧ numElements 1024 = 1024 / 8 ∧ ¬ numElements 1024 < 8) :=
  ⟨by decide, generated_size_never_skipped 1 1024 1024 (by decide)⟩

end CacheBenchmark
